import Mathlib

/-!
Shallow embedding of the `app` and `bootstrap` packages of isp-kit.

The `app.Application` supervisor (src/app/app.go) owns a cancellable
context, a list of runners and a list of closers.  `Run` starts every
runner in an `errgroup` sharing the context; the group latches the first
non-nil error (by arrival order of goroutine completions) and cancels the
shared context when that first error is recorded; `Wait` blocks until all
goroutines have completed and returns the latched error.  `Shutdown`
cancels the context and then closes every closer in registration order,
logging (but not propagating) closer errors.

Concurrency is embedded by making the nondeterministic completion
(arrival) order an explicit parameter: a list of runner indices, assumed
to be a permutation of the registration indices for a complete run.
-/

/-- A runner, as observed by `Application.Run`: its diagnostic identity
(Go: the concrete type `%T`) and the error its `Run(ctx)` call returns
(`none` = nil). -/
structure Runner where
  identity : String
  result : Option String
  deriving DecidableEq, Repr

/-- A closer, as observed by `Application.Shutdown`: its diagnostic
identity (Go: `%T`) and the error its `Close()` call returns. -/
structure Closer where
  identity : String
  closeResult : Option String
  deriving DecidableEq, Repr

/-- The body of the goroutine started by `Application.Run` for one runner
(src/app/app.go lines 86-92): a nil runner error is passed through as nil,
a non-nil error is wrapped by `errors.WithMessagef(err, "start runner[%T]",
runner)`, whose message is "start runner[<identity>]: <original message>". -/
def goBody (r : Runner) : Option String :=
  match r.result with
  | some msg => some ("start runner[" ++ r.identity ++ "]: " ++ msg)
  | none => none

/-- State of the `errgroup.Group` together with the shared cancellable
context: `err` is the field guarded by `errOnce`, `ctxCanceled` records
whether the context's cancel function has been called. -/
structure GroupState where
  err : Option String
  ctxCanceled : Bool
  deriving DecidableEq, Repr

/-- Initial group state: no error recorded, context not cancelled. -/
def GroupState.initial : GroupState := ⟨none, false⟩

/-- One goroutine completing with result `res` (the return value of the
function passed to `group.Go`): `errgroup` runs
`if err != nil then errOnce.Do(fun _ => g.err = err; cancel())`,
so only the first non-nil result is recorded, and the shared context is
cancelled at the moment that first error is recorded. -/
def GroupState.complete (g : GroupState) (res : Option String) : GroupState :=
  match res with
  | none => g
  | some e =>
    match g.err with
    | some _ => g
    | none => { err := some e, ctxCanceled := true }

/-- Fold the goroutine completion events, in arrival order, through the
errgroup latch. -/
def runGroup (events : List (Option String)) : GroupState :=
  events.foldl GroupState.complete GroupState.initial

/-- The goroutine results in arrival order: `arrival` lists runner indices
in the order their goroutines complete; each in-range index contributes
the wrapped result of that runner. -/
def arrivalResults (runners : List Runner) (arrival : List Nat) : List (Option String) :=
  arrival.filterMap (fun i => (runners[i]?).map goBody)

/-- `Application.Run` (src/app/app.go lines 83-95): starts one goroutine
per registered runner and returns `group.Wait()`, the error latched by the
group after every goroutine has completed. -/
def ApplicationRun (runners : List Runner) (arrival : List Nat) : Option String :=
  (runGroup (arrivalResults runners arrival)).err

/-- The first failed runner by arrival order: among the runners listed in
completion order, the first whose `Run` returned a non-nil error. -/
def firstErrorByArrival (runners : List Runner) (arrival : List Nat) : Option Runner :=
  (arrival.filterMap (fun i => runners[i]?)).find? (fun r => r.result.isSome)

/- ### Lemmas about the errgroup latch -/

theorem goBody_isSome (r : Runner) : (goBody r).isSome = r.result.isSome := by
  cases h : r.result <;> simp [goBody, h]

theorem foldl_complete_err (events : List (Option String)) (g : GroupState) :
    (events.foldl GroupState.complete g).err =
      match g.err with
      | some e => some e
      | none => events.findSome? id := by
  induction events generalizing g with
  | nil => cases h : g.err <;> simp [h]
  | cons r rest ih =>
    cases r with
    | none =>
      simp only [List.foldl_cons, GroupState.complete, ih, List.findSome?_cons, id]
    | some e =>
      cases h : g.err with
      | some e2 =>
        simp only [List.foldl_cons, GroupState.complete, h, ih, List.findSome?_cons, id]
      | none =>
        simp only [List.foldl_cons, GroupState.complete, h, ih, List.findSome?_cons, id]

/-- The error `group.Wait()` returns is the first non-nil goroutine result,
in arrival order. -/
theorem runGroup_err (events : List (Option String)) :
    (runGroup events).err = events.findSome? id := by
  simpa [GroupState.initial] using foldl_complete_err events GroupState.initial

theorem foldl_complete_canceled (events : List (Option String)) (g : GroupState)
    (hinv : g.err = none ∨ g.ctxCanceled = true) :
    (events.foldl GroupState.complete g).ctxCanceled
      = (g.ctxCanceled || events.any Option.isSome) := by
  induction events generalizing g with
  | nil => simp
  | cons r rest ih =>
    cases r with
    | none =>
      simpa [GroupState.complete] using ih g hinv
    | some e =>
      cases h : g.err with
      | some e2 =>
        have hc : g.ctxCanceled = true := by
          rcases hinv with h1 | h1
          · rw [h] at h1; cases h1
          · exact h1
        simp only [List.foldl_cons, GroupState.complete, h]
        rw [ih g hinv, hc]
        simp
      | none =>
        simp only [List.foldl_cons, GroupState.complete, h]
        rw [ih ⟨some e, true⟩ (Or.inr rfl)]
        simp

/-- The shared context is cancelled (by the time `Wait` can return) iff
some goroutine completed with a non-nil result. -/
theorem runGroup_canceled (events : List (Option String)) :
    (runGroup events).ctxCanceled = events.any Option.isSome := by
  simpa [GroupState.initial] using
    foldl_complete_canceled events GroupState.initial (Or.inl rfl)

theorem findSome?_goBody (l : List Runner) :
    l.findSome? goBody = (l.find? (fun r => r.result.isSome)).bind goBody := by
  induction l with
  | nil => simp
  | cons r rest ih =>
    cases h : r.result with
    | none =>
      have hnone : goBody r = none := by simp [goBody, h]
      have hp : (r.result.isSome : Bool) = false := by simp [h]
      simp [List.findSome?_cons, List.find?_cons, hnone, hp, ih]
    | some e =>
      have hsome : goBody r = some ("start runner[" ++ r.identity ++ "]: " ++ e) := by
        simp [goBody, h]
      have hp : (r.result.isSome : Bool) = true := by simp [h]
      simp [List.findSome?_cons, List.find?_cons, hsome, hp]

/-- Every in-range index contributes: filtering the registration list
through all indices in order recovers the list itself. -/
theorem filterMap_getElem?_range (l : List Runner) :
    (List.range l.length).filterMap (fun i => l[i]?) = l := by
  induction l with
  | nil => simp
  | cons a t ih =>
    rw [List.length_cons, List.range_succ_eq_map, List.filterMap_cons]
    simp only [List.getElem?_cons_zero, List.filterMap_map]
    have hcomp : ((fun i => (a :: t)[i]?) ∘ Nat.succ) = fun i => t[i]? := by
      funext i
      simp [Function.comp]
    rw [hcomp, ih]

/-- A complete schedule (a permutation of the registration indices) visits
the registered runners exactly, as a permutation. -/
theorem perm_arrival_runners (runners : List Runner) (arrival : List Nat)
    (hperm : List.Perm arrival (List.range runners.length)) :
    List.Perm (arrival.filterMap (fun i => runners[i]?)) runners := by
  have h := hperm.filterMap (fun i => runners[i]?)
  rwa [filterMap_getElem?_range] at h

theorem arrivalResults_eq_map (runners : List Runner) (arrival : List Nat) :
    arrivalResults runners arrival
      = (arrival.filterMap (fun i => runners[i]?)).map goBody := by
  rw [List.map_filterMap]
  rfl

/-- `Run`'s result, as a function of the runners in arrival order: the
wrapped error of the first failed runner. -/
theorem ApplicationRun_eq (runners : List Runner) (arrival : List Nat) :
    ApplicationRun runners arrival = (firstErrorByArrival runners arrival).bind goBody := by
  rw [ApplicationRun, runGroup_err, arrivalResults_eq_map]
  rw [show (id : Option String → Option String) = id from rfl]
  rw [List.findSome?_map, firstErrorByArrival]
  rw [show ((id : Option String → Option String) ∘ goBody) = goBody from rfl]
  exact findSome?_goBody _

/-- Claim C1: for every set of registered runners with at least one
non-nil error, `Run`'s returned error is deterministically the wrapped
error of the first failed runner in arrival order (the errgroup's
first-error latch), regardless of the completion order of the other
runners, and it depends only on the runner sequence in arrival order —
not on the registration order. -/
theorem run_returns_first_arrival_error (runners : List Runner) (arrival : List Nat)
    (hperm : List.Perm arrival (List.range runners.length))
    (hex : ∃ r ∈ runners, r.result.isSome = true) :
    (∃ r, firstErrorByArrival runners arrival = some r
        ∧ r.result.isSome = true
        ∧ ApplicationRun runners arrival = goBody r)
    ∧ ∀ (runners2 : List Runner) (arrival2 : List Nat),
        arrival.filterMap (fun i => runners[i]?)
            = arrival2.filterMap (fun i => runners2[i]?) →
        ApplicationRun runners arrival = ApplicationRun runners2 arrival2 := by
  constructor
  · have hmem := perm_arrival_runners runners arrival hperm
    obtain ⟨r0, hr0mem, hr0⟩ := hex
    have hsome : ((arrival.filterMap (fun i => runners[i]?)).find?
        (fun r => r.result.isSome)).isSome := by
      apply List.find?_isSome.mpr
      exact ⟨r0, hmem.mem_iff.mpr hr0mem, hr0⟩
    obtain ⟨r, hr⟩ := Option.isSome_iff_exists.mp hsome
    refine ⟨r, hr, ?_, ?_⟩
    · simpa using List.find?_some hr
    · rw [ApplicationRun_eq, firstErrorByArrival, hr]
      rfl
  · intro runners2 arrival2 heq
    rw [ApplicationRun_eq, ApplicationRun_eq, firstErrorByArrival, firstErrorByArrival, heq]

theorem run_returns_first_arrival_error_witness :
    ApplicationRun [⟨"A", none⟩, ⟨"B", some "boom"⟩] [1, 0]
        = some "start runner[B]: boom"
    ∧ ApplicationRun [⟨"A", none⟩, ⟨"B", some "boom"⟩] [1, 0]
        = ApplicationRun [⟨"B", some "boom"⟩, ⟨"A", none⟩] [0, 1] := by
  have h := run_returns_first_arrival_error [⟨"A", none⟩, ⟨"B", some "boom"⟩] [1, 0]
    (by decide) ⟨⟨"B", some "boom"⟩, by decide, by decide⟩
  constructor
  · obtain ⟨⟨r, hr1, _, hr3⟩, _⟩ := h
    have hval : firstErrorByArrival [⟨"A", none⟩, ⟨"B", some "boom"⟩] [1, 0]
        = some ⟨"B", some "boom"⟩ := by decide
    have : r = (⟨"B", some "boom"⟩ : Runner) :=
      (Option.some.inj (hval.symm.trans hr1)).symm
    rw [hr3, this]
    rfl
  · exact h.2 _ _ (by decide)

/-- Claim C2 (amended): a failed runner's error is wrapped with its
identity as "start runner[<identity>]: <message>"; the error `Run` returns
is the wrapped error of the *first* failed runner by arrival order (a
later failed runner's error is dropped by the errgroup latch, so the
original per-runner universal reading fails — see the counterexample). -/
theorem run_error_wraps_first_failed_runner (runners : List Runner) (arrival : List Nat)
    (r : Runner) (msg : String)
    (hfirst : firstErrorByArrival runners arrival = some r)
    (hmsg : r.result = some msg) :
    ApplicationRun runners arrival
      = some ("start runner[" ++ r.identity ++ "]: " ++ msg) := by
  rw [ApplicationRun_eq, hfirst]
  simp [goBody, hmsg]

theorem run_error_wraps_first_failed_runner_witness :
    ApplicationRun [⟨"A", some "boom"⟩] [0] = some "start runner[A]: boom" := by
  have h := run_error_wraps_first_failed_runner [⟨"A", some "boom"⟩] [0]
    ⟨"A", some "boom"⟩ "boom" (by decide) rfl
  simpa using h

/-- Claim C2 as stated is false: with two failed runners, `Run` returns
only the first arrival's wrapped error, so for the other failed runner
(here B, in a complete schedule where A's goroutine completes first) the
returned error is not B's wrapped error. -/
theorem run_error_not_every_failed_runner :
    List.Perm [0, 1] (List.range ([⟨"A", some "a"⟩, ⟨"B", some "b"⟩] : List Runner).length)
    ∧ (⟨"B", some "b"⟩ : Runner) ∈ ([⟨"A", some "a"⟩, ⟨"B", some "b"⟩] : List Runner)
    ∧ (Runner.result ⟨"B", some "b"⟩) = some "b"
    ∧ ApplicationRun [⟨"A", some "a"⟩, ⟨"B", some "b"⟩] [0, 1]
        = some "start runner[A]: a"
    ∧ ApplicationRun [⟨"A", some "a"⟩, ⟨"B", some "b"⟩] [0, 1]
        ≠ some "start runner[B]: b" := by
  refine ⟨by decide, by decide, rfl, by decide, by decide⟩

/-- Claim C3: when any runner fails, the shared context's cancellation is
triggered by the errgroup at the moment the first failure is recorded:
every completion point from the first failure on observes
`ctxCanceled = true`, and in particular the state `Wait` returns from
(after all completions) is cancelled. -/
theorem cancellation_on_first_failure (runners : List Runner) (arrival : List Nat)
    (hperm : List.Perm arrival (List.range runners.length))
    (hex : ∃ r ∈ runners, r.result.isSome = true) :
    (∀ k, ((arrivalResults runners arrival).take k).any Option.isSome = true →
        (runGroup ((arrivalResults runners arrival).take k)).ctxCanceled = true)
    ∧ (runGroup (arrivalResults runners arrival)).ctxCanceled = true := by
  constructor
  · intro k hk
    rw [runGroup_canceled]
    exact hk
  · rw [runGroup_canceled, arrivalResults_eq_map]
    obtain ⟨r0, hmem, hr0⟩ := hex
    have hmem2 := (perm_arrival_runners runners arrival hperm).mem_iff.mpr hmem
    refine List.any_eq_true.mpr ⟨goBody r0, List.mem_map_of_mem _ hmem2, ?_⟩
    rw [goBody_isSome]
    exact hr0

theorem cancellation_on_first_failure_witness :
    (runGroup (arrivalResults [⟨"A", some "x"⟩, ⟨"B", none⟩] [0, 1])).ctxCanceled = true
    ∧ (runGroup ((arrivalResults [⟨"A", some "x"⟩, ⟨"B", none⟩] [0, 1]).take 1)).ctxCanceled
        = true := by
  have h := cancellation_on_first_failure [⟨"A", some "x"⟩, ⟨"B", none⟩] [0, 1]
    (by decide) ⟨⟨"A", some "x"⟩, by decide, by decide⟩
  exact ⟨h.2, h.1 1 (by decide)⟩

/-- Claim C4: a complete run has exactly one completion event per
registered runner — `Wait` returns only after all N goroutines completed
— and when every runner returns nil, `Run` returns nil. -/
theorem run_waits_for_all_nil_on_success (runners : List Runner) (arrival : List Nat)
    (hperm : List.Perm arrival (List.range runners.length)) :
    (arrivalResults runners arrival).length = runners.length
    ∧ ((∀ r ∈ runners, r.result = none) → ApplicationRun runners arrival = none) := by
  constructor
  · rw [arrivalResults_eq_map, List.length_map]
    exact (perm_arrival_runners runners arrival hperm).length_eq
  · intro hall
    rw [ApplicationRun_eq]
    have hnone : firstErrorByArrival runners arrival = none := by
      rw [firstErrorByArrival]
      apply List.find?_eq_none.mpr
      intro x hx
      have hxr := (perm_arrival_runners runners arrival hperm).mem_iff.mp hx
      simp [hall x hxr]
    rw [hnone]
    rfl

theorem run_waits_for_all_nil_on_success_witness :
    (arrivalResults [⟨"A", none⟩, ⟨"B", none⟩] [1, 0]).length = 2
    ∧ ApplicationRun [⟨"A", none⟩, ⟨"B", none⟩] [1, 0] = none := by
  have h := run_waits_for_all_nil_on_success [⟨"A", none⟩, ⟨"B", none⟩] [1, 0] (by decide)
  exact ⟨h.1, h.2 (by decide)⟩

/- ### The Application record, New, registration and Shutdown -/

/-- The fields of `app.Application` that `AddRunners`, `AddClosers` and
`Shutdown` read or write.  The config and logger handle are omitted; the
logger's role as the head closer is kept. -/
structure Application where
  ctxCanceled : Bool
  runners : List Runner
  closers : List Closer
  deriving DecidableEq, Repr

/-- `New` (src/app/app.go lines 50-60): creates the cancellable context
(not yet cancelled) and returns an Application with no runners and with
the closer list initialised to exactly `[logger]`.  The logger built by
`log.New` lives outside src/, so it enters the model as an opaque-valued
`Closer` parameter (per the spec, a logger that flushes buffered output is
itself an ordinary closer whose release may fail). -/
def AppNew (logger : Closer) : Application :=
  { ctxCanceled := false, runners := [], closers := [logger] }

/-- `AddRunners` (src/app/app.go lines 75-77): append. -/
def Application.addRunners (a : Application) (rs : List Runner) : Application :=
  { a with runners := a.runners ++ rs }

/-- `AddClosers` (src/app/app.go lines 79-81): append. -/
def Application.addClosers (a : Application) (cs : List Closer) : Application :=
  { a with closers := a.closers ++ cs }

/-- The observable actions `Shutdown` performs, in order. -/
inductive Event where
  | cancelCtx : Event
  | closeCall (identity : String) (result : Option String) : Event
  | logError (closer : String) (msg : String) : Event
  deriving DecidableEq, Repr

/-- The `for i := 0; i < len(a.closers); i++` loop of `Shutdown`
(src/app/app.go lines 100-106): each closer's `Close()` is invoked; a
non-nil result is additionally logged with the closer's identity; the
loop always advances to the next closer. -/
def shutdownLoop : List Closer → List Event
  | [] => []
  | c :: rest =>
    match c.closeResult with
    | none => Event.closeCall c.identity none :: shutdownLoop rest
    | some e =>
        Event.closeCall c.identity (some e)
          :: Event.logError c.identity e :: shutdownLoop rest

/-- `Shutdown` (src/app/app.go lines 97-107): `a.cancel()` first, then the
closer loop.  Its Go return type is empty — the trace of events is the
only observable outcome; no closer error is returned to the caller. -/
def ApplicationShutdown (a : Application) : List Event :=
  Event.cancelCtx :: shutdownLoop a.closers

/-- The `Close()` invocations in a trace, in order, with their results. -/
def closeCalls : List Event → List (String × Option String)
  | [] => []
  | Event.closeCall ident res :: rest => (ident, res) :: closeCalls rest
  | _ :: rest => closeCalls rest

/-- The logged closer errors in a trace, in order. -/
def loggedErrors : List Event → List (String × String)
  | [] => []
  | Event.logError c m :: rest => (c, m) :: loggedErrors rest
  | _ :: rest => loggedErrors rest

/-- The cancellable context primitive (`context.WithCancel`): calling the
cancel function marks it cancelled; cancellation is irreversible. -/
structure CancelableCtx where
  canceled : Bool
  deriving DecidableEq, Repr

/-- The cancel function: sets the cancelled flag. -/
def CancelableCtx.cancel (c : CancelableCtx) : CancelableCtx :=
  { c with canceled := true }

theorem closeCalls_shutdownLoop (cs : List Closer) :
    closeCalls (shutdownLoop cs) = cs.map (fun c => (c.identity, c.closeResult)) := by
  induction cs with
  | nil => rfl
  | cons c rest ih =>
    cases h : c.closeResult with
    | none => simp [shutdownLoop, h, closeCalls, ih]
    | some e => simp [shutdownLoop, h, closeCalls, ih]

theorem loggedErrors_shutdownLoop (cs : List Closer) :
    loggedErrors (shutdownLoop cs)
      = cs.filterMap (fun c => c.closeResult.map (fun e => (c.identity, e))) := by
  induction cs with
  | nil => rfl
  | cons c rest ih =>
    cases h : c.closeResult with
    | none => simp [shutdownLoop, h, loggedErrors, ih, List.filterMap_cons]
    | some e => simp [shutdownLoop, h, loggedErrors, ih, List.filterMap_cons]

/-- Claim C5: one `Shutdown` call invokes each registered closer's
`Close()` exactly once, sequentially and in exact registration (append)
order — the close-call trace is precisely the closer list — and the loop
runs through the whole list even when earlier closers return errors. -/
theorem shutdown_closes_all_in_order (a : Application) :
    closeCalls (ApplicationShutdown a) = a.closers.map (fun c => (c.identity, c.closeResult))
    ∧ (closeCalls (ApplicationShutdown a)).length = a.closers.length := by
  have h : closeCalls (ApplicationShutdown a)
      = a.closers.map (fun c => (c.identity, c.closeResult)) := by
    rw [ApplicationShutdown]
    show closeCalls (shutdownLoop a.closers) = _
    exact closeCalls_shutdownLoop a.closers
  exact ⟨h, by rw [h, List.length_map]⟩

/-- Claim C6: each closer whose `Close()` returns a non-nil error is
logged, once, paired with that closer's identity, and the shutdown
sequence still visits every closer; `Shutdown`'s return type carries no
error, so nothing propagates to its caller. -/
theorem shutdown_logs_and_swallows_closer_errors (a : Application) :
    loggedErrors (ApplicationShutdown a)
        = a.closers.filterMap (fun c => c.closeResult.map (fun e => (c.identity, e)))
    ∧ closeCalls (ApplicationShutdown a)
        = a.closers.map (fun c => (c.identity, c.closeResult)) := by
  constructor
  · rw [ApplicationShutdown]
    show loggedErrors (shutdownLoop a.closers) = _
    exact loggedErrors_shutdownLoop a.closers
  · rw [ApplicationShutdown]
    show closeCalls (shutdownLoop a.closers) = _
    exact closeCalls_shutdownLoop a.closers

/-- Claim C7: `Shutdown` triggers `a.cancel()` unconditionally as its
first action — the head of every shutdown trace is the cancellation,
before any close call — and the cancel operation is idempotent: a second
trigger (or a trigger after `Run` already ended) changes nothing. -/
theorem shutdown_cancels_first_idempotent (a : Application) (c : CancelableCtx) :
    (ApplicationShutdown a).head? = some Event.cancelCtx
    ∧ (c.cancel).cancel = c.cancel
    ∧ (CancelableCtx.cancel { canceled := true }) = { canceled := true } := by
  exact ⟨rfl, rfl, rfl⟩

/-- Claim C8 (amended): with zero registered runners and zero registered
closers, `Run` returns nil with no completion event to wait for, and —
provided the logger's own `Close()` succeeds — `Shutdown` logs no errors.
The proviso is forced: `New` seeds the closer list with the logger, so a
failing logger close is logged even though the caller registered nothing
(see the counterexample). -/
theorem empty_app_run_nil_clean_shutdown (logger : Closer) (arrival : List Nat)
    (hlog : logger.closeResult = none) :
    ApplicationRun (AppNew logger).runners arrival = none
    ∧ arrivalResults (AppNew logger).runners arrival = []
    ∧ loggedErrors (ApplicationShutdown (AppNew logger)) = [] := by
  have hempty : arrivalResults (AppNew logger).runners arrival = [] := by
    rw [AppNew]
    show List.filterMap _ arrival = []
    apply List.filterMap_eq_nil_iff.mpr
    intro i _
    rfl
  refine ⟨?_, hempty, ?_⟩
  · rw [ApplicationRun, hempty]
    rfl
  · rw [ApplicationShutdown, AppNew]
    show loggedErrors (shutdownLoop [logger]) = []
    rw [shutdownLoop, hlog]
    rfl

theorem empty_app_run_nil_clean_shutdown_witness :
    ApplicationRun (AppNew ⟨"*log.Adapter", none⟩).runners [] = none
    ∧ loggedErrors (ApplicationShutdown (AppNew ⟨"*log.Adapter", none⟩)) = [] := by
  have h := empty_app_run_nil_clean_shutdown ⟨"*log.Adapter", none⟩ [] rfl
  exact ⟨h.1, h.2.2⟩

/-- Claim C8 as stated is false: a supervisor with zero registered runners
and zero registered closers still holds the logger in its closer list, so
when the logger's own close fails, `Shutdown` logs that error. -/
theorem empty_app_shutdown_can_log :
    (AppNew ⟨"*log.Adapter", some "sync failed"⟩).runners = []
    ∧ (AppNew ⟨"*log.Adapter", some "sync failed"⟩).closers
        = [⟨"*log.Adapter", some "sync failed"⟩]
    ∧ loggedErrors (ApplicationShutdown (AppNew ⟨"*log.Adapter", some "sync failed"⟩))
        = [("*log.Adapter", "sync failed")]
    ∧ loggedErrors (ApplicationShutdown (AppNew ⟨"*log.Adapter", some "sync failed"⟩))
        ≠ [] := by
  refine ⟨rfl, rfl, rfl, by decide⟩

/-- Claim C9: after `New`, the closer list is never empty — it is exactly
the logger followed by whatever `AddClosers` appended — so every
`Shutdown` closes the logger first, before any caller-registered closer,
and the errors of later closers are logged in the part of the trace that
follows the logger's close call. -/
theorem logger_is_first_closer (logger : Closer) (added : List Closer) :
    ((AppNew logger).addClosers added).closers = logger :: added
    ∧ ((AppNew logger).addClosers added).closers ≠ []
    ∧ ApplicationShutdown ((AppNew logger).addClosers added)
        = Event.cancelCtx :: Event.closeCall logger.identity logger.closeResult ::
            ((match logger.closeResult with
              | none => []
              | some e => [Event.logError logger.identity e]) ++ shutdownLoop added)
    ∧ loggedErrors (shutdownLoop added)
        = added.filterMap (fun c => c.closeResult.map (fun e => (c.identity, e))) := by
  have hcl : ((AppNew logger).addClosers added).closers = logger :: added := by
    simp [AppNew, Application.addClosers]
  refine ⟨hcl, by rw [hcl]; exact List.cons_ne_nil _ _, ?_, loggedErrors_shutdownLoop added⟩
  rw [ApplicationShutdown, hcl]
  cases h : logger.closeResult with
  | none => simp [shutdownLoop, h]
  | some e => simp [shutdownLoop, h]

/- ### bootstrap: parseConfigServiceHosts -/

/-- `strings.Split(s, ";")` for the one-character separator the source
uses, modelled structurally on the string's character list: Go's `Split`
with a non-empty separator yields one (possibly empty) segment per
separator occurrence plus one, and `Split("", ";") = [""]`. -/
def splitOnChar (sep : Char) : List Char → List (List Char)
  | [] => [[]]
  | c :: rest =>
    match splitOnChar sep rest with
    | [] => [[]]
    | w :: ws => if c = sep then [] :: w :: ws else (c :: w) :: ws

/-- `strings.Split` lifted back to `String`. -/
def goSplit (s : String) (sep : Char) : List String :=
  (splitOnChar sep s.data).map String.mk

/-- `net.JoinHostPort(host, port)` (Go net package): "host:port", except
that a host containing a colon (an IPv6 literal) is bracketed as
"[host]:port". -/
def joinHostPort (host port : String) : String :=
  if host.data.contains ':' then "[" ++ host ++ "]" ++ ":" ++ port
  else host ++ ":" ++ port

deriving instance DecidableEq for Except

/-- The `ConfigServiceAddr` fields `parseConfigServiceHosts` reads. -/
structure ConfigServiceAddr where
  IP : String
  Port : String
  deriving DecidableEq, Repr

/-- `parseConfigServiceHosts` (src/bootstrap/boostrap.go lines 130-141):
split the IP and Port fields on ";"; if the segment counts differ, fail
with "len(hosts) != len(ports)"; otherwise join the segments pairwise
with `net.JoinHostPort`. -/
def parseConfigServiceHosts (cfg : ConfigServiceAddr) : Except String (List String) :=
  if (goSplit cfg.IP ';').length ≠ (goSplit cfg.Port ';').length then
    Except.error "len(hosts) != len(ports)"
  else
    Except.ok (List.zipWith joinHostPort (goSplit cfg.IP ';') (goSplit cfg.Port ';'))

/-- Claim C10 (amended): `parseConfigServiceHosts` returns an error iff
the number of ";"-separated segments of the IP field differs from that of
the Port field; otherwise it returns, in order, the list whose i-th
element is the i-th host joined with the i-th port via `net.JoinHostPort`
— "host:port", or "[host]:port" when the host contains a colon (the
literal "host:port" form of the original claim fails for such hosts, see
the counterexample). -/
theorem parseConfigServiceHosts_spec (cfg : ConfigServiceAddr) :
    ((∃ e, parseConfigServiceHosts cfg = Except.error e)
        ↔ (goSplit cfg.IP ';').length ≠ (goSplit cfg.Port ';').length)
    ∧ ((goSplit cfg.IP ';').length = (goSplit cfg.Port ';').length →
        parseConfigServiceHosts cfg
          = Except.ok (List.zipWith joinHostPort (goSplit cfg.IP ';') (goSplit cfg.Port ';')))
    ∧ ∀ (i : Nat) (h p : String),
        (goSplit cfg.IP ';')[i]? = some h →
        (goSplit cfg.Port ';')[i]? = some p →
        (List.zipWith joinHostPort (goSplit cfg.IP ';') (goSplit cfg.Port ';'))[i]?
          = some (if h.data.contains ':'
                  then "[" ++ h ++ "]" ++ ":" ++ p
                  else h ++ ":" ++ p) := by
  refine ⟨⟨?_, ?_⟩, ?_, ?_⟩
  · rintro ⟨e, he⟩ hlen
    rw [parseConfigServiceHosts, if_neg (not_not_intro hlen)] at he
    cases he
  · intro hlen
    exact ⟨"len(hosts) != len(ports)", by rw [parseConfigServiceHosts, if_pos hlen]⟩
  · intro hlen
    rw [parseConfigServiceHosts, if_neg (not_not_intro hlen)]
  · intro i h p h1 h2
    exact List.getElem?_zipWith_eq_some.mpr ⟨h, p, h1, h2, rfl⟩

theorem parseConfigServiceHosts_spec_witness :
    parseConfigServiceHosts ⟨"a;b", "1;2"⟩ = Except.ok ["a:1", "b:2"]
    ∧ parseConfigServiceHosts ⟨"a", "1;2"⟩ = Except.error "len(hosts) != len(ports)" := by
  constructor
  · have h := (parseConfigServiceHosts_spec ⟨"a;b", "1;2"⟩).2.1 (by decide)
    rw [h]
    decide
  · have h := (parseConfigServiceHosts_spec ⟨"a", "1;2"⟩).1.mpr (by decide)
    obtain ⟨e, he⟩ := h
    have : e = "len(hosts) != len(ports)" := by
      have hv : parseConfigServiceHosts ⟨"a", "1;2"⟩
          = Except.error "len(hosts) != len(ports)" := by decide
      rw [hv] at he
      exact (Except.error.inj he).symm
    rw [← this]
    exact he.symm ▸ he

/-- Claim C10 as stated is false for hosts containing a colon: with
IP "::1" and Port "80" the segment counts agree, yet the returned element
is the bracketed "[::1]:80", not "::1" joined with "80" as "host:port". -/
theorem parseConfigServiceHosts_ipv6_bracketed :
    (goSplit "::1" ';').length = (goSplit "80" ';').length
    ∧ parseConfigServiceHosts ⟨"::1", "80"⟩ = Except.ok ["[::1]:80"]
    ∧ parseConfigServiceHosts ⟨"::1", "80"⟩ ≠ Except.ok ["::1" ++ ":" ++ "80"] := by
  refine ⟨by decide, by decide, by decide⟩
